import Mathlib

/-!
Shallow embedding of the Eco-nest security camera pipeline (src/app.py).

Modelled components:
 * `SharedCamera` (frame hub): a bounded FIFO queue of size 10 with a
   producer (`publish`, from `SharedCamera.update`) and non-blocking
   consumers (`get_frame`).  Frames are identified by their capture
   sequence number.
 * `manage_storage`: the retention sweep over the `videos` and `anomalies`
   directories, including the filename-timestamp parsing done with
   `str.replace` and `datetime.strptime("%Y%m%d_%H%M%S")`, the
   `sort(key=extract_time, reverse=True)` call (a stable descending sort),
   the age-based deletion passes (whose `os.remove` sits inside the same
   `try/except` as the parse), and the count-based pass (whose `os.remove`
   is not guarded and repeatedly targets `anomaly_files[-1]`).
 * `detect_anomalies`: the cooldown gate around snapshot capture.
 * `record_video`: one cycle of the chunked recorder loop.
 * `get_anomalies`: the paginated HTTP listing endpoint.

Times are modelled as naturals (epoch-like seconds) or integers where the
Python code subtracts `time.time()` values; `time.mktime` of a local
`datetime` is modelled by an order-preserving Gregorian linearisation
`toEpoch` (DST folds and time-zone offsets shift all values uniformly and
do not affect the order or window comparisons the claims are about).
`datetime.strptime` with the fixed-width pattern `%Y%m%d_%H%M%S` is
modelled on the canonical 15-character form `YYYYMMDD_HHMMSS`.
-/

/-! ## Characters and digit strings -/

/-- Decimal digit character, used to build concrete file names. -/
def digitChar (n : Nat) : Char :=
  if n = 0 then '0' else if n = 1 then '1' else if n = 2 then '2'
  else if n = 3 then '3' else if n = 4 then '4' else if n = 5 then '5'
  else if n = 6 then '6' else if n = 7 then '7' else if n = 8 then '8' else '9'

/-- `c` is an ASCII decimal digit. -/
def isDigitC (c : Char) : Bool :=
  48 ≤ c.toNat && c.toNat ≤ 57

/-- Numeric value of a digit character. -/
def digitValC (c : Char) : Nat := c.toNat - 48

/-! ## Python string primitives used by `manage_storage` -/

/-- `chStarts p s` is Python's `s.startswith(p)` on character lists. -/
def chStarts : List Char → List Char → Bool
  | [], _ => true
  | _ :: _, [] => false
  | p :: ps, c :: cs => p == c && chStarts ps cs

/-- `chEnds p s` is Python's `s.endswith(p)` on character lists. -/
def chEnds (p s : List Char) : Bool :=
  chStarts p.reverse s.reverse

/-- Fuelled worker for Python's `s.replace(pat, rep)`: replaces every
non-overlapping occurrence of `pat`, scanning left to right.  Each step
consumes at least one character, so any fuel of at least the input length
gives the replace semantics (`pyRepAux_fuel` below). -/
def pyRepAux (pat rep : List Char) : Nat → List Char → List Char
  | _, [] => []
  | 0, s => s
  | fuel + 1, c :: rest =>
    if chStarts pat (c :: rest) ∧ pat ≠ [] then
      rep ++ pyRepAux pat rep fuel (rest.drop (pat.length - 1))
    else
      c :: pyRepAux pat rep fuel rest

/-- Python's `s.replace(pat, rep)` on character lists.  (For the empty
pattern Python inserts `rep` everywhere; the source only ever uses the
non-empty patterns "video_", ".mp4", "anomaly_", ".jpg".) -/
def pyReplaceL (pat rep s : List Char) : List Char :=
  pyRepAux pat rep s.length s

/-- Python's `s.replace(pat, rep)` on strings. -/
def pyReplace (s pat rep : String) : String :=
  String.mk (pyReplaceL pat.data rep.data s.data)

/-! ## Filename timestamp parsing (`datetime.strptime("%Y%m%d_%H%M%S")`,
`time.mktime`) -/

/-- Gregorian leap-year test. -/
def isLeapB (y : Nat) : Bool :=
  (y % 4 == 0 && y % 100 != 0) || y % 400 == 0

/-- Number of days in month `m` (1-based) of year `y`. -/
def daysInMonth (y m : Nat) : Nat :=
  if m = 2 then (if isLeapB y then 29 else 28)
  else if m = 4 ∨ m = 6 ∨ m = 9 ∨ m = 11 then 30 else 31

/-- Cumulative days before month `m` (1-based) in year `y`. -/
def daysBeforeMonth (y m : Nat) : Nat :=
  let base := [0, 0, 31, 59, 90, 120, 151, 181, 212, 243, 273, 304, 334].getD m 0
  if 2 < m ∧ isLeapB y then base + 1 else base

/-- Days of all years strictly before year `y` (proleptic Gregorian). -/
def daysBeforeYear (y : Nat) : Nat :=
  (y - 1) * 365 + (y - 1) / 4 - (y - 1) / 100 + (y - 1) / 400

/-- Order-preserving linearisation of a wall-clock datetime to seconds,
modelling `time.mktime(datetime(...).timetuple())` up to a constant
offset. -/
def toEpoch (y mo d h mi s : Nat) : Nat :=
  (((daysBeforeYear y + daysBeforeMonth y mo + (d - 1)) * 24 + h) * 60 + mi) * 60 + s

/-- `datetime.strptime(ts, "%Y%m%d_%H%M%S")` followed by `time.mktime`,
on the canonical 15-character form; `none` models the `ValueError` that
the callers catch. -/
def parseTimestamp (s : String) : Option Nat :=
  match s.data with
  | [y1, y2, y3, y4, b1, b2, d1, d2, u, h1, h2, n1, n2, e1, e2] =>
    if u = '_' ∧ isDigitC y1 ∧ isDigitC y2 ∧ isDigitC y3 ∧ isDigitC y4 ∧
       isDigitC b1 ∧ isDigitC b2 ∧ isDigitC d1 ∧ isDigitC d2 ∧
       isDigitC h1 ∧ isDigitC h2 ∧ isDigitC n1 ∧ isDigitC n2 ∧
       isDigitC e1 ∧ isDigitC e2 then
      let y := ((digitValC y1 * 10 + digitValC y2) * 10 + digitValC y3) * 10 + digitValC y4
      let mo := digitValC b1 * 10 + digitValC b2
      let d := digitValC d1 * 10 + digitValC d2
      let h := digitValC h1 * 10 + digitValC h2
      let mi := digitValC n1 * 10 + digitValC n2
      let sec := digitValC e1 * 10 + digitValC e2
      if 1 ≤ y ∧ 1 ≤ mo ∧ mo ≤ 12 ∧ 1 ≤ d ∧ d ≤ daysInMonth y mo ∧
         h ≤ 23 ∧ mi ≤ 59 ∧ sec ≤ 59 then
        some (toEpoch y mo d h mi sec)
      else none
    else none
  | _ => none

/-! ## Configuration constants (src/app.py lines 16-33) -/

/-- `VIDEO_DURATION = 30 * 60` (seconds per chunk). -/
def VIDEO_DURATION : Int := 30 * 60

/-- `MAX_VIDEO_DURATION = 12 * 60 * 60` (retention age, seconds). -/
def MAX_VIDEO_DURATION : Nat := 12 * 60 * 60

/-- `MAX_ANOMY_IMAGES = 2000`. -/
def MAX_ANOMY_IMAGES : Nat := 2000

/-- `ANOMALY_COOLDOWN = 5.0` (seconds, whole-second granularity). -/
def ANOMALY_COOLDOWN : Int := 5

/-! ## Filesystem model

A directory is the list of its file names in listing order (`os.listdir`),
necessarily without duplicate names. -/

/-- A directory state: file names in listing order. -/
abbrev FS := List String

/-- `os.remove`: deletes the named file, or raises `FileNotFoundError`
when it is already gone. -/
def osRemove (fs : FS) (f : String) : Except String FS :=
  if f ∈ fs then Except.ok (fs.erase f) else Except.error ("FileNotFoundError")

/-- An `os.remove` whose exception is swallowed by an enclosing broad
`except` clause (the age passes wrap parse and remove in one
`try/except Exception`): a missing file leaves the directory unchanged and
the sweep continues. -/
def removeCaught (fs : FS) (f : String) : FS :=
  match osRemove fs f with
  | Except.ok fs2 => fs2
  | Except.error _ => fs

/-! ## Filename classification and timestamp extraction -/

def vidPre : List Char := "video_".data
def vidSuf : List Char := ".mp4".data
def anomPre : List Char := "anomaly_".data
def anomSuf : List Char := ".jpg".data

/-- `filename.startswith("video_") and filename.endswith(".mp4")`. -/
def matchVideo (f : String) : Bool :=
  chStarts vidPre f.data && chEnds vidSuf f.data

/-- `filename.startswith("anomaly_") and filename.endswith(".jpg")`. -/
def matchAnomaly (f : String) : Bool :=
  chStarts anomPre f.data && chEnds anomSuf f.data

/-- `filename.replace("video_", "").replace(".mp4", "")`. -/
def videoTsStr (f : String) : String :=
  pyReplace (pyReplace f (String.mk vidPre) (String.mk [])) (String.mk vidSuf) (String.mk [])

/-- `base.replace("anomaly_", "").replace(".jpg", "")`. -/
def anomalyTsStr (f : String) : String :=
  pyReplace (pyReplace f (String.mk anomPre) (String.mk [])) (String.mk anomSuf) (String.mk [])

/-- `extract_time` (src/app.py lines 186-192): parse the embedded
timestamp; on a parse failure fall back to `datetime.now()` (`nowE`).
Returns the sort key used by `anomaly_files.sort(key=..., reverse=True)`. -/
def extract_time (nowE : Nat) (f : String) : Nat :=
  match parseTimestamp (anomalyTsStr f) with
  | some t => t
  | none => nowE

/-! ## Stable descending sort (`list.sort(key=..., reverse=True)`)

Python's sort is stable, and `reverse=True` sorts descending while keeping
the original order of key-equal elements.  Insertion sort that moves an
element past strictly-smaller keys only has exactly this behaviour. -/

/-- Insert `x` (originally before every element of the list) into a
descending-sorted list, keeping stability. -/
def insDesc (key : String → Nat) (x : String) : List String → List String
  | [] => [x]
  | y :: ys => if key y ≤ key x then x :: y :: ys else y :: insDesc key x ys

/-- Stable descending sort by `key`. -/
def pySortDesc (key : String → Nat) : List String → List String
  | [] => []
  | x :: xs => insDesc key x (pySortDesc key xs)

/-! ## The retention sweep `manage_storage` (src/app.py lines 152-217) -/

/-- One iteration of the video age loop (lines 166-176): the timestamp
parse and the `os.remove` sit in the same `try`, so both a parse failure
and a missing file are caught, logged and skipped. -/
def videoAgeStep (cutoff : Nat) (fs : FS) (f : String) : FS :=
  if matchVideo f then
    match parseTimestamp (videoTsStr f) with
    | some t => if t < cutoff then removeCaught fs f else fs
    | none => fs
  else fs

/-- Video age pass: iterate the listing (`os.listdir`) over the current
directory state. -/
def videoAgePass (listing : List String) (fs : FS) (cutoff : Nat) : FS :=
  listing.foldl (videoAgeStep cutoff) fs

/-- One iteration of the anomaly age loop (lines 197-206); same
`try/except` shape as the video loop. -/
def anomalyAgeStep (cutoff : Nat) (fs : FS) (f : String) : FS :=
  match parseTimestamp (anomalyTsStr f) with
  | some t => if t < cutoff then removeCaught fs f else fs
  | none => fs

/-- Anomaly age pass (lines 179-206): collect the matching names, sort
them by `extract_time` descending, then run the age-deletion loop over
that sorted list. -/
def anomalyAgePass (listing : List String) (fs : FS) (cutoff nowE : Nat) : FS :=
  (pySortDesc (extract_time nowE) (listing.filter matchAnomaly)).foldl
    (anomalyAgeStep cutoff) fs

/-- The count-pass deletion loop (lines 215-217):
`for i in range(excess): os.remove(anomaly_files[-1])`.  The indexed list
is never mutated, so every iteration targets the same path `victim`; the
`os.remove` is not inside any `try`, so a missing file raises an uncaught
`FileNotFoundError` that aborts the sweep.  The result is the directory
state reached so far plus the uncaught exception, if any. -/
def countLoop (victim : String) : Nat → FS → FS × Option String
  | 0, fs => (fs, none)
  | n + 1, fs =>
    match osRemove fs victim with
    | Except.ok fs2 => countLoop victim n fs2
    | Except.error e => (fs, some e)

/-- The count-based pass (lines 208-217): re-list the matching anomaly
files (`listing`), and if more than `MAX_ANOMY_IMAGES` remain, sort them
descending by `extract_time` and run the deletion loop against the live
directory state `fs` (which a concurrent sweep may have changed since the
listing was taken). -/
def countPass (listing : List String) (fs : FS) (nowE : Nat) : FS × Option String :=
  let afiles := listing.filter matchAnomaly
  if MAX_ANOMY_IMAGES < afiles.length then
    match (pySortDesc (extract_time nowE) afiles).getLast? with
    | some victim => countLoop victim (afiles.length - MAX_ANOMY_IMAGES) fs
    | none => (fs, none)
  else (fs, none)

/-- One retention sweep `manage_storage()` over the two directory states,
at wall-clock time `nowE`: video age pass, anomaly age pass, then the
count pass over the re-listed anomaly directory.  The second component is
the uncaught exception, if the count pass raised one. -/
def manage_storage (videos anomalies : FS) (nowE : Nat) : (FS × FS) × Option String :=
  let cutoff := nowE - MAX_VIDEO_DURATION
  let videos2 := videoAgePass videos videos cutoff
  let anomalies2 := anomalyAgePass anomalies anomalies cutoff nowE
  let res := countPass anomalies2 anomalies2 nowE
  ((videos2, res.1), res.2)

/-! ## The frame hub `SharedCamera` (src/app.py lines 64-120)

`SharedCamera` holds one shared `Queue(maxsize=10)`.  The producer thread
(`update`) puts each captured frame at the back, discarding the front
frame first when the queue is full; every consumer (`record_video`,
`detect_anomalies`, each `generate_frames` viewer) calls the same
`get_frame`, which destructively takes the front frame when the queue is
non-empty.  Frames are identified by their capture sequence number
(capture order), starting at 1; the queue list is front-first. -/

/-- Queue capacity: `queue_size=10` (the default, used by the single
`SharedCamera(camera_index=CAMERA_INDEX)` instance). -/
def QUEUE_SIZE : Nat := 10

/-- `SharedCamera.update`, one successful `cap.read()` (lines 97-102):
if the queue is not full, put the frame; otherwise discard the oldest
frame and put the new one. -/
def publish (q : List Nat) (f : Nat) : List Nat :=
  if q.length < QUEUE_SIZE then q ++ [f] else q.drop 1 ++ [f]

/-- `SharedCamera.get_frame` (lines 106-112): take the front frame if the
queue is non-empty, else return `None`.  Returns the frame (if any) and
the remaining queue. -/
def get_frame (q : List Nat) : Option Nat × List Nat :=
  match q with
  | [] => (none, [])
  | f :: rest => (some f, rest)

/-- An interleaving step of the hub: either the producer publishes the
next captured frame, or consumer `c` polls `get_frame`. -/
inductive HubOp where
  | pub : HubOp
  | poll : Nat → HubOp
deriving DecidableEq

/-- Hub state: the shared queue (front first), the next capture sequence
number, and the delivery log of `(consumer, frame)` pairs in the order the
polls returned them. -/
structure HubState where
  queue : List Nat
  nextSeq : Nat
  delivered : List (Nat × Nat)

/-- The initial hub state: empty queue, first frame will be number 1. -/
def hubInit : HubState := { queue := [], nextSeq := 1, delivered := [] }

/-- One interleaved hub step (`Queue.put`/`Queue.get` are linearisable,
and the single producer makes the full-check/put pair atomic in effect). -/
def hubStep (s : HubState) : HubOp → HubState
  | HubOp.pub =>
    { s with queue := publish s.queue s.nextSeq, nextSeq := s.nextSeq + 1 }
  | HubOp.poll c =>
    match get_frame s.queue with
    | (none, q) => { s with queue := q }
    | (some f, q) => { s with queue := q, delivered := s.delivered ++ [(c, f)] }

/-- Run the hub over an interleaving of producer and consumer steps. -/
def runHub (ops : List HubOp) : HubState :=
  ops.foldl hubStep hubInit

/-! ## The anomaly detector's cooldown gate (src/app.py lines 379-415) -/

/-- One detector cycle's capture decision (lines 404-415): given the last
successful capture time `last` (initially `0`), whether an anomaly was
flagged this cycle, and the current time `now`, return whether a snapshot
is written and the updated `last_capture_time`.  A suppressed detection
leaves `last` untouched. -/
def detectStep (last : Int) (flagged : Bool) (now : Int) : Bool × Int :=
  if flagged then
    if ANOMALY_COOLDOWN ≤ now - last then (true, now) else (false, last)
  else (false, last)

/-- Run the detector over a list of `(time, flagged)` cycles, returning
the times at which snapshots were written. -/
def detectRun (last : Int) : List (Int × Bool) → List Int
  | [] => []
  | (now, fl) :: rest =>
    let r := detectStep last fl now
    (if r.1 then [now] else []) ++ detectRun r.2 rest

/-! ## One cycle of the recorder loop `record_video`
(src/app.py lines 338-365)

The recorder state is the currently open chunk (identified by the
wall-clock timestamp embedded in its file name) and `end_time`.  In one
cycle the code polls a frame; if none, it does nothing.  Otherwise, if no
chunk is open it opens one named after the current time and sets
`end_time = now + VIDEO_DURATION`; it then writes the frame to the open
chunk, and only afterwards checks `time.time() >= end_time`, releasing the
writer when rotation is due. -/

/-- Recorder state: `video_writer` (the open chunk's timestamp id, or
`none`) and `end_time`. -/
structure RecState where
  writer : Option Int
  endTime : Int
deriving DecidableEq

/-- One cycle of the `record_video` loop body: returns the new state and
the write performed this cycle, as `(chunk id, frame)`. -/
def recordCycle (s : RecState) (frame : Option Nat) (now : Int) : RecState × Option (Int × Nat) :=
  match frame with
  | none => (s, none)
  | some f =>
    let opened : Int × Int :=
      match s.writer with
      | none => (now, now + VIDEO_DURATION)
      | some w => (w, s.endTime)
    let wr := some (opened.1, f)
    if opened.2 ≤ now then ({ writer := none, endTime := opened.2 }, wr)
    else ({ writer := some opened.1, endTime := opened.2 }, wr)

/-! ## The paginated listing endpoint `get_anomalies`
(src/app.py lines 271-295) -/

/-- Stable insertion for the plain descending string sort
`anomaly_files.sort(reverse=True)` (Python compares strings by code
points, as `String.lt` does). -/
def insStrDesc (x : String) : List String → List String
  | [] => [x]
  | y :: ys => if x < y then y :: insStrDesc x ys else x :: y :: ys

/-- `anomaly_files.sort(reverse=True)`: stable descending string sort. -/
def pySortStrDesc : List String → List String
  | [] => []
  | x :: xs => insStrDesc x (pySortStrDesc xs)

/-- `GET /get_anomalies?page=P&per_page=N` (lines 271-295): filter the
directory listing to anomaly files, sort newest-filename-first, slice
`[start:start+per_page]` with `start = (page-1)*per_page`, and map each
name to its URL.  Pages are 1-indexed (`page` defaults to 1); the model
uses naturals, covering every `page ≥ 1`, `per_page ≥ 0`. -/
def get_anomalies (dirListing : List String) (page per_page : Nat) : List String :=
  let anomaly_files := dirListing.filter matchAnomaly
  let sorted := pySortStrDesc anomaly_files
  let start := (page - 1) * per_page
  ((sorted.drop start).take per_page).map (fun f => ("/anomalies/") ++ f)

/-- The specification's slice, written from the spec's words: items
`(P-1)*N+1` through `P*N` (1-indexed) of the sorted list, i.e. the
0-indexed entries `(P-1)*N + j` for `j < N` that exist. -/
def specPage (sorted : List String) (page per_page : Nat) : List String :=
  (List.range per_page).filterMap (fun j => sorted.get? ((page - 1) * per_page + j))

/-! ## Concrete directory states used to settle the claims -/

/-- The timestamp part `20250101_00MMSS` of the `k`-th snapshot name,
for `k < 3600`: minute `k / 60`, second `k % 60`. -/
def midC (k : Nat) : List Char :=
  ['2', '0', '2', '5', '0', '1', '0', '1', '_', '0', '0',
   digitChar (k / 60 / 10), digitChar (k / 60 % 10),
   digitChar (k % 60 / 10), digitChar (k % 60 % 10)]

/-- `anomaly_20250101_00MMSS.jpg`: a parseable snapshot name whose
embedded timestamp is `KEY + k` seconds. -/
def nameC (k : Nat) : String := String.mk (anomPre ++ midC k ++ anomSuf)

/-- Four decimal digits of `i` (for `i < 10000`): a middle part that can
never parse as a 15-character timestamp. -/
def bad4 (i : Nat) : List Char :=
  [digitChar (i / 1000 % 10), digitChar (i / 100 % 10),
   digitChar (i / 10 % 10), digitChar (i % 10)]

/-- `anomaly_<dddd>.jpg`: matches the anomaly filename pattern but its
embedded timestamp does not parse. -/
def nameBad (i : Nat) : String := String.mk (anomPre ++ bad4 i ++ anomSuf)

/-- The epoch key of `20250101_000000`. -/
def KEY : Nat := toEpoch 2025 1 1 0 0 0

/-- A snapshot directory listing of `n + 1` parseable snapshot files in
descending-timestamp order: `nameC n, nameC (n-1), ..., nameC 0`. -/
def descListing (n : Nat) : FS :=
  (List.range (n + 1)).map (fun j => nameC (n - j))

/-- 2005 parseable snapshot files, timestamps `KEY ... KEY + 2004`. -/
def L2005 : FS := descListing 2004

/-- The sweep time for the `L2005` scenario: the newest file was created
just now, so every file is inside the 12-hour window. -/
def nowC : Nat := KEY + 2004

/-- 2001 parseable snapshot files, for the deletion-race scenario. -/
def L2001r : FS := descListing 2000

/-- 2001 pattern-matching snapshot files none of whose names parse. -/
def L2001bad : FS := (List.range (2000 + 1)).map nameBad

/-- 25 anomaly file names for the pagination example. -/
def anomNames25 : List String :=
  (List.range 25).map
    (fun i => String.mk (anomPre ++ [digitChar (i / 10), digitChar (i % 10)] ++ anomSuf))

/-! # Lemmas and theorems -/

/-! ## Replace / prefix machinery -/

theorem chStarts_self_append (l m : List Char) : chStarts l (l ++ m) = true := by
  induction l with
  | nil => rfl
  | cons c cs ih => simp [chStarts, ih]

theorem chStarts_head_eq {p0 c : Char} {ps cs : List Char}
    (h : chStarts (p0 :: ps) (c :: cs) = true) : p0 = c := by
  simp only [chStarts, Bool.and_eq_true, beq_iff_eq] at h
  exact h.1

theorem pyRepAux_skip (pat rep : List Char) (p0 : Char) (ps : List Char)
    (hp : pat = p0 :: ps) :
    ∀ (l : List Char), (∀ c ∈ l, c ≠ p0) → ∀ (fuel : Nat) (m : List Char),
      l.length ≤ fuel →
      pyRepAux pat rep fuel (l ++ m) = l ++ pyRepAux pat rep (fuel - l.length) m := by
  intro l
  induction l with
  | nil =>
    intro _ fuel m _
    simp
  | cons c cs ih =>
    intro hl fuel m hf
    cases fuel with
    | zero => simp at hf
    | succ fu =>
      have hne : ¬ (chStarts pat (c :: (cs ++ m)) = true ∧ pat ≠ []) := by
        rintro ⟨h1, -⟩
        exact hl c (by simp) (by rw [hp] at h1; exact (chStarts_head_eq h1).symm)
      show pyRepAux pat rep (fu + 1) (c :: (cs ++ m)) = _
      rw [pyRepAux, if_neg hne]
      rw [ih (fun a ha => hl a (by simp [ha])) fu m (by simpa using hf)]
      have he : fu + 1 - (c :: cs).length = fu - cs.length := by
        simp only [List.length_cons]
        omega
      rw [he]
      simp

theorem pyRepAux_here (p0 : Char) (ps rep : List Char) (fuel : Nat) (m : List Char) :
    pyRepAux (p0 :: ps) rep (fuel + 1) ((p0 :: ps) ++ m)
      = rep ++ pyRepAux (p0 :: ps) rep fuel m := by
  show pyRepAux (p0 :: ps) rep (fuel + 1) (p0 :: (ps ++ m)) = _
  rw [pyRepAux, if_pos ⟨by simpa using chStarts_self_append (p0 :: ps) m, by simp⟩]
  simp [List.drop_left]

theorem pyRepAux_fuel (pat rep : List Char) :
    ∀ (fuel1 : Nat) (s : List Char) (fuel2 : Nat),
      s.length ≤ fuel1 → s.length ≤ fuel2 →
      pyRepAux pat rep fuel1 s = pyRepAux pat rep fuel2 s := by
  intro fuel1
  induction fuel1 with
  | zero =>
    intro s fuel2 h1 _
    have : s = [] := by
      cases s with
      | nil => rfl
      | cons a as => simp at h1
    subst this
    cases fuel2 <;> rfl
  | succ fu ih =>
    intro s fuel2 h1 h2
    cases s with
    | nil => cases fuel2 <;> rfl
    | cons c rest =>
      cases fuel2 with
      | zero => simp at h2
      | succ fu2 =>
        rw [pyRepAux, pyRepAux]
        by_cases hc : chStarts pat (c :: rest) = true ∧ pat ≠ []
        · rw [if_pos hc, if_pos hc]
          have hlen : (rest.drop (pat.length - 1)).length ≤ fu := by
            simp only [List.length_drop]
            simp only [List.length_cons] at h1
            omega
          have hlen2 : (rest.drop (pat.length - 1)).length ≤ fu2 := by
            simp only [List.length_drop]
            simp only [List.length_cons] at h2
            omega
          rw [ih _ fu2 hlen hlen2]
        · rw [if_neg hc, if_neg hc]
          have hlen : rest.length ≤ fu := by
            simp only [List.length_cons] at h1
            omega
          have hlen2 : rest.length ≤ fu2 := by
            simp only [List.length_cons] at h2
            omega
          rw [ih _ fu2 hlen hlen2]

theorem pyReplaceL_skip (p0 : Char) (ps rep : List Char) (l m : List Char)
    (hl : ∀ c ∈ l, c ≠ p0) :
    pyReplaceL (p0 :: ps) rep (l ++ m) = l ++ pyReplaceL (p0 :: ps) rep m := by
  unfold pyReplaceL
  rw [pyRepAux_skip (p0 :: ps) rep p0 ps rfl l hl ((l ++ m).length) m (by simp)]
  congr 1
  apply pyRepAux_fuel
  · simp
  · exact Nat.le_refl _

theorem pyReplaceL_here (p0 : Char) (ps rep m : List Char) :
    pyReplaceL (p0 :: ps) rep ((p0 :: ps) ++ m) = rep ++ pyReplaceL (p0 :: ps) rep m := by
  unfold pyReplaceL
  have h1 : ((p0 :: ps) ++ m).length = (ps.length + m.length) + 1 := by
    simp only [List.length_append, List.length_cons]
    omega
  rw [h1, pyRepAux_here]
  congr 1
  apply pyRepAux_fuel
  · omega
  · exact Nat.le_refl _

theorem pyReplaceL_nil (pat rep : List Char) : pyReplaceL pat rep [] = [] := rfl

/-! ## Digit characters -/

theorem digitChar_ne (n : Nat) : digitChar n ≠ 'a' ∧ digitChar n ≠ '.' := by
  unfold digitChar
  split_ifs <;> exact ⟨by decide, by decide⟩

theorem digitChar_val (n : Nat) (h : n < 10) :
    isDigitC (digitChar n) = true ∧ digitValC (digitChar n) = n := by
  interval_cases n <;> exact ⟨by decide, by decide⟩

theorem digitChar_inj (a b : Nat) (ha : a < 10) (hb : b < 10)
    (h : digitChar a = digitChar b) : a = b := by
  interval_cases a <;> interval_cases b <;> revert h <;> decide

/-! ## Stripping the prefix and suffix of well-formed anomaly names -/

theorem replace_anomPre (mid : List Char) (ha : ∀ c ∈ mid ++ anomSuf, c ≠ 'a') :
    pyReplaceL anomPre [] (anomPre ++ (mid ++ anomSuf)) = mid ++ anomSuf := by
  have e1 : anomPre = 'a' :: ("nomaly_".data) := rfl
  rw [e1, pyReplaceL_here]
  have h2 := pyReplaceL_skip 'a' ("nomaly_".data) [] (mid ++ anomSuf) [] ha
  simpa using h2

theorem replace_anomSuf (mid : List Char) (hd : ∀ c ∈ mid, c ≠ '.') :
    pyReplaceL anomSuf [] (mid ++ anomSuf) = mid := by
  have e1 : anomSuf = '.' :: ("jpg".data) := rfl
  rw [e1, pyReplaceL_skip '.' ("jpg".data) [] mid ('.' :: ("jpg".data)) hd]
  have h3 : pyReplaceL ('.' :: ("jpg".data)) [] ('.' :: ("jpg".data)) = [] := by
    have h4 := pyReplaceL_here '.' ("jpg".data) [] []
    simpa [pyReplaceL_nil] using h4
  rw [h3]
  simp

theorem anomalyTsStr_mk (mid : List Char)
    (ha : ∀ c ∈ mid, c ≠ 'a') (hd : ∀ c ∈ mid, c ≠ '.') :
    anomalyTsStr (String.mk (anomPre ++ mid ++ anomSuf)) = String.mk mid := by
  have hsufa : ∀ c ∈ anomSuf, c ≠ 'a' := by decide
  have hboth : ∀ c ∈ mid ++ anomSuf, c ≠ 'a' := by
    intro c hc
    rcases List.mem_append.1 hc with h | h
    · exact ha c h
    · exact hsufa c h
  show String.mk (pyReplaceL anomSuf []
        (pyReplaceL anomPre [] (anomPre ++ mid ++ anomSuf))) = String.mk mid
  rw [List.append_assoc, replace_anomPre mid hboth, replace_anomSuf mid hd]

theorem matchAnomaly_mk (mid : List Char) :
    matchAnomaly (String.mk (anomPre ++ mid ++ anomSuf)) = true := by
  unfold matchAnomaly chEnds
  simp only [Bool.and_eq_true]
  constructor
  · show chStarts anomPre (anomPre ++ mid ++ anomSuf) = true
    rw [List.append_assoc]
    exact chStarts_self_append _ _
  · show chStarts anomSuf.reverse (anomPre ++ mid ++ anomSuf).reverse = true
    rw [List.reverse_append]
    exact chStarts_self_append _ _

theorem midC_chars (k : Nat) : ∀ c ∈ midC k, c ≠ 'a' ∧ c ≠ '.' := by
  intro c hc
  unfold midC at hc
  simp only [List.mem_cons, List.not_mem_nil, or_false] at hc
  rcases hc with rfl | rfl | rfl | rfl | rfl | rfl | rfl | rfl | rfl | rfl | rfl | rfl | rfl | rfl | rfl
  all_goals first
    | exact ⟨by decide, by decide⟩
    | exact digitChar_ne _

theorem bad4_chars (i : Nat) : ∀ c ∈ bad4 i, c ≠ 'a' ∧ c ≠ '.' := by
  intro c hc
  unfold bad4 at hc
  simp only [List.mem_cons, List.not_mem_nil, or_false] at hc
  rcases hc with rfl | rfl | rfl | rfl
  all_goals exact digitChar_ne _

/-! ## Evaluating the timestamp parse on the concrete name families -/

theorem parseTimestamp_cons (c1 c2 c3 c4 c5 c6 c7 c8 c9 c10 c11 c12 c13 c14 c15 : Char) :
    parseTimestamp (String.mk [c1, c2, c3, c4, c5, c6, c7, c8, c9, c10, c11, c12, c13, c14, c15])
      = (if c9 = '_' ∧ isDigitC c1 ∧ isDigitC c2 ∧ isDigitC c3 ∧ isDigitC c4 ∧
            isDigitC c5 ∧ isDigitC c6 ∧ isDigitC c7 ∧ isDigitC c8 ∧
            isDigitC c10 ∧ isDigitC c11 ∧ isDigitC c12 ∧ isDigitC c13 ∧
            isDigitC c14 ∧ isDigitC c15 then
          (if 1 ≤ ((digitValC c1 * 10 + digitValC c2) * 10 + digitValC c3) * 10 + digitValC c4 ∧
              1 ≤ digitValC c5 * 10 + digitValC c6 ∧
              digitValC c5 * 10 + digitValC c6 ≤ 12 ∧
              1 ≤ digitValC c7 * 10 + digitValC c8 ∧
              digitValC c7 * 10 + digitValC c8 ≤
                daysInMonth
                  (((digitValC c1 * 10 + digitValC c2) * 10 + digitValC c3) * 10 + digitValC c4)
                  (digitValC c5 * 10 + digitValC c6) ∧
              digitValC c10 * 10 + digitValC c11 ≤ 23 ∧
              digitValC c12 * 10 + digitValC c13 ≤ 59 ∧
              digitValC c14 * 10 + digitValC c15 ≤ 59 then
            some (toEpoch
              (((digitValC c1 * 10 + digitValC c2) * 10 + digitValC c3) * 10 + digitValC c4)
              (digitValC c5 * 10 + digitValC c6)
              (digitValC c7 * 10 + digitValC c8)
              (digitValC c10 * 10 + digitValC c11)
              (digitValC c12 * 10 + digitValC c13)
              (digitValC c14 * 10 + digitValC c15))
          else none)
        else none) := rfl

theorem toEpoch_jan (mi s : Nat) : toEpoch 2025 1 1 0 mi s = KEY + mi * 60 + s := by
  unfold KEY toEpoch
  ring

theorem parse_midC (k : Nat) (hk : k < 3600) :
    parseTimestamp (String.mk (midC k)) = some (KEY + k) := by
  have hA := digitChar_val (k / 60 / 10) (by omega)
  have hB := digitChar_val (k / 60 % 10) (by omega)
  have hC := digitChar_val (k % 60 / 10) (by omega)
  have hD := digitChar_val (k % 60 % 10) (by omega)
  unfold midC
  rw [parseTimestamp_cons]
  rw [if_pos ⟨rfl, by decide, by decide, by decide, by decide, by decide, by decide,
    by decide, by decide, by decide, by decide, hA.1, hB.1, hC.1, hD.1⟩]
  have v0 : digitValC '0' = 0 := rfl
  have v1 : digitValC '1' = 1 := rfl
  have v2 : digitValC '2' = 2 := rfl
  have v5 : digitValC '5' = 5 := rfl
  simp only [v0, v1, v2, v5, hA.2, hB.2, hC.2, hD.2]
  have hmi : k / 60 / 10 * 10 + k / 60 % 10 = k / 60 := by omega
  have hsec : k % 60 / 10 * 10 + k % 60 % 10 = k % 60 := by omega
  rw [hmi, hsec]
  norm_num
  refine ⟨⟨by decide, by omega, by omega⟩, ?_⟩
  rw [toEpoch_jan]
  omega

theorem parse_bad4 (i : Nat) : parseTimestamp (String.mk (bad4 i)) = none := rfl

theorem parse_nameC (k : Nat) (hk : k < 3600) :
    parseTimestamp (anomalyTsStr (nameC k)) = some (KEY + k) := by
  unfold nameC
  rw [anomalyTsStr_mk (midC k) (fun c hc => (midC_chars k c hc).1)
    (fun c hc => (midC_chars k c hc).2)]
  exact parse_midC k hk

theorem parse_nameBad (i : Nat) :
    parseTimestamp (anomalyTsStr (nameBad i)) = none := by
  unfold nameBad
  rw [anomalyTsStr_mk (bad4 i) (fun c hc => (bad4_chars i c hc).1)
    (fun c hc => (bad4_chars i c hc).2)]
  exact parse_bad4 i

theorem extract_nameC (nowE k : Nat) (hk : k < 3600) :
    extract_time nowE (nameC k) = KEY + k := by
  unfold extract_time
  rw [parse_nameC k hk]

theorem extract_nameBad (nowE i : Nat) :
    extract_time nowE (nameBad i) = nowE := by
  unfold extract_time
  rw [parse_nameBad i]

theorem matchAnomaly_nameC (k : Nat) : matchAnomaly (nameC k) = true :=
  matchAnomaly_mk (midC k)

theorem matchAnomaly_nameBad (i : Nat) : matchAnomaly (nameBad i) = true :=
  matchAnomaly_mk (bad4 i)

theorem KEY_large : 43200 ≤ KEY := by decide

/-! ## Injectivity of the name families -/

theorem midC_inj (a b : Nat) (ha : a < 3600) (hb : b < 3600)
    (h : midC a = midC b) : a = b := by
  unfold midC at h
  simp only [List.cons.injEq, and_true] at h
  obtain ⟨-, -, -, -, -, -, -, -, -, -, -, e1, e2, e3, e4⟩ := h
  have q1 := digitChar_inj _ _ (by omega) (by omega) e1
  have q2 := digitChar_inj _ _ (by omega) (by omega) e2
  have q3 := digitChar_inj _ _ (by omega) (by omega) e3
  have q4 := digitChar_inj _ _ (by omega) (by omega) e4
  omega

theorem nameC_inj (a b : Nat) (ha : a < 3600) (hb : b < 3600)
    (h : nameC a = nameC b) : a = b := by
  unfold nameC at h
  have hd : anomPre ++ midC a ++ anomSuf = anomPre ++ midC b ++ anomSuf := by
    have := congrArg String.data h
    simpa using this
  rw [List.append_assoc, List.append_assoc] at hd
  have h2 := List.append_cancel_left hd
  have h3 := List.append_cancel_right h2
  exact midC_inj a b ha hb h3

theorem bad4_inj (a b : Nat) (ha : a < 10000) (hb : b < 10000)
    (h : bad4 a = bad4 b) : a = b := by
  unfold bad4 at h
  simp only [List.cons.injEq, and_true] at h
  obtain ⟨e1, e2, e3, e4⟩ := h
  have q1 := digitChar_inj _ _ (by omega) (by omega) e1
  have q2 := digitChar_inj _ _ (by omega) (by omega) e2
  have q3 := digitChar_inj _ _ (by omega) (by omega) e3
  have q4 := digitChar_inj _ _ (by omega) (by omega) e4
  omega

theorem nameBad_inj (a b : Nat) (ha : a < 10000) (hb : b < 10000)
    (h : nameBad a = nameBad b) : a = b := by
  unfold nameBad at h
  have hd : anomPre ++ bad4 a ++ anomSuf = anomPre ++ bad4 b ++ anomSuf := by
    have := congrArg String.data h
    simpa using this
  rw [List.append_assoc, List.append_assoc] at hd
  have h2 := List.append_cancel_left hd
  have h3 := List.append_cancel_right h2
  exact bad4_inj a b ha hb h3

/-! ## Sorting lemmas -/

theorem insDesc_front (key : String → Nat) (x : String) (l : List String)
    (h : ∀ b ∈ l, key b ≤ key x) : insDesc key x l = x :: l := by
  cases l with
  | nil => rfl
  | cons y ys => simp [insDesc, h y (by simp)]

theorem pySortDesc_sorted_id (key : String → Nat) (l : List String)
    (h : l.Pairwise (fun a b => key b ≤ key a)) : pySortDesc key l = l := by
  induction l with
  | nil => rfl
  | cons x xs ih =>
    rw [List.pairwise_cons] at h
    show insDesc key x (pySortDesc key xs) = x :: xs
    rw [ih h.2]
    exact insDesc_front key x xs h.1

theorem mem_insDesc (key : String → Nat) (x a : String) (l : List String) :
    a ∈ insDesc key x l ↔ a = x ∨ a ∈ l := by
  induction l with
  | nil => simp [insDesc]
  | cons y ys ih =>
    show a ∈ (if key y ≤ key x then x :: y :: ys else y :: insDesc key x ys) ↔ _
    split_ifs with hc
    · simp
    · simp only [List.mem_cons, ih]
      tauto

theorem mem_pySortDesc (key : String → Nat) (a : String) (l : List String) :
    a ∈ pySortDesc key l ↔ a ∈ l := by
  induction l with
  | nil => simp [pySortDesc]
  | cons x xs ih =>
    show a ∈ insDesc key x (pySortDesc key xs) ↔ _
    rw [mem_insDesc, ih]
    simp

/-! ## Fold helpers -/

theorem foldl_id_of_steps {α β : Type} (g : β → α → β) (l : List α) (b : β)
    (h : ∀ a ∈ l, ∀ st, g st a = st) : l.foldl g b = b := by
  induction l generalizing b with
  | nil => rfl
  | cons x xs ih =>
    rw [List.foldl_cons, h x (by simp) b]
    exact ih b (fun a ha st => h a (by simp [ha]) st)

theorem foldl_pres {α β : Type} (g : β → α → β) (l : List α) (b : β) (P : β → Prop)
    (h : ∀ st a, P st → P (g st a)) (hb : P b) : P (l.foldl g b) := by
  induction l generalizing b with
  | nil => exact hb
  | cons x xs ih => exact ih (g b x) (h b x hb)

/-! ## Properties of the concrete listings -/

theorem descListing_filter (n : Nat) : (descListing n).filter matchAnomaly = descListing n := by
  rw [List.filter_eq_self]
  intro a ha
  rcases List.mem_map.1 ha with ⟨j, -, rfl⟩
  exact matchAnomaly_nameC _

theorem descListing_length (n : Nat) : (descListing n).length = n + 1 := by
  simp [descListing]

theorem descListing_pairwise (n : Nat) (hn : n < 3600) (nowE : Nat) :
    (descListing n).Pairwise
      (fun a b => extract_time nowE b ≤ extract_time nowE a) := by
  unfold descListing
  rw [List.pairwise_map]
  apply List.Pairwise.imp ?f (List.pairwise_lt_range (n + 1))
  intro i j hij
  rw [extract_nameC nowE _ (by omega), extract_nameC nowE _ (by omega)]
  omega

theorem descListing_getLast (n : Nat) : (descListing n).getLast? = some (nameC 0) := by
  unfold descListing
  rw [List.range_succ, List.map_append]
  simp

theorem descListing_mem0 (n : Nat) : nameC 0 ∈ descListing n := by
  unfold descListing
  exact List.mem_map.mpr ⟨n, List.mem_range.mpr (by omega), by rw [Nat.sub_self]⟩

theorem descListing_nodup (n : Nat) (hn : n < 3600) : (descListing n).Nodup := by
  unfold descListing
  apply List.Nodup.map_on ?inj (List.nodup_range (n + 1))
  intro x hx y hy hxy
  rw [List.mem_range] at hx hy
  have := nameC_inj (n - x) (n - y) (by omega) (by omega) hxy
  omega

theorem L2001bad_filter : L2001bad.filter matchAnomaly = L2001bad := by
  rw [List.filter_eq_self]
  intro a ha
  rcases List.mem_map.1 ha with ⟨j, -, rfl⟩
  exact matchAnomaly_nameBad _

theorem L2001bad_pairwise (nowE : Nat) :
    L2001bad.Pairwise (fun a b => extract_time nowE b ≤ extract_time nowE a) := by
  unfold L2001bad
  rw [List.pairwise_map]
  apply List.Pairwise.imp ?f (List.pairwise_lt_range (2000 + 1))
  intro i j hij
  rw [extract_nameBad, extract_nameBad]

theorem L2001bad_getLast : L2001bad.getLast? = some (nameBad 2000) := by
  unfold L2001bad
  rw [List.range_succ, List.map_append]
  simp

theorem L2001bad_nodup : L2001bad.Nodup := by
  unfold L2001bad
  apply List.Nodup.map_on ?inj (List.nodup_range (2000 + 1))
  intro x hx y hy hxy
  rw [List.mem_range] at hx hy
  exact nameBad_inj x y (by omega) (by omega) hxy

/-! ## Age-pass behaviour -/

theorem anomalyAgeStep_skip (cutoff : Nat) (f : String)
    (h : ∀ t, parseTimestamp (anomalyTsStr f) = some t → ¬ t < cutoff) :
    ∀ st, anomalyAgeStep cutoff st f = st := by
  intro st
  unfold anomalyAgeStep
  cases hp : parseTimestamp (anomalyTsStr f) with
  | none => rfl
  | some t => simp [h t hp]

theorem anomalyAgePass_id (listing : List String) (fs : FS) (cutoff nowE : Nat)
    (h : ∀ f ∈ listing, ∀ st, anomalyAgeStep cutoff st f = st) :
    anomalyAgePass listing fs cutoff nowE = fs := by
  unfold anomalyAgePass
  apply foldl_id_of_steps
  intro a ha st
  exact h a (List.mem_filter.1 ((mem_pySortDesc _ a _).1 ha)).1 st

/-! ## Count-pass behaviour -/

theorem countLoop_one (fs : FS) (v : String) (hv : v ∈ fs) :
    countLoop v 1 fs = (fs.erase v, none) := by
  simp [countLoop, osRemove, hv]

theorem countLoop_two (fs : FS) (v : String) (k : Nat) (hv : v ∈ fs)
    (hv2 : v ∉ fs.erase v) :
    countLoop v (k + 2) fs = (fs.erase v, some ("FileNotFoundError")) := by
  show countLoop v (k + 1 + 1) fs = _
  rw [countLoop]
  simp only [osRemove, hv, if_true, if_pos]
  rw [countLoop]
  simp [osRemove, hv2]

theorem countLoop_missing (fs : FS) (v : String) (k : Nat) (hv : v ∉ fs) :
    countLoop v (k + 1) fs = (fs, some ("FileNotFoundError")) := by
  rw [countLoop]
  simp [osRemove, hv]

theorem countPass_descListing (n : Nat) (hn : n < 3600)
    (hbig : MAX_ANOMY_IMAGES < n + 1) (fs : FS) (nowE : Nat) :
    countPass (descListing n) fs nowE
      = countLoop (nameC 0) (n + 1 - MAX_ANOMY_IMAGES) fs := by
  simp only [countPass, descListing_filter, descListing_length,
    pySortDesc_sorted_id _ _ (descListing_pairwise n hn nowE), descListing_getLast,
    if_pos hbig]

theorem countPass_L2001bad (fs : FS) (nowE : Nat) :
    countPass L2001bad fs nowE = countLoop (nameBad 2000) 1 fs := by
  have hlen : L2001bad.length = 2001 := by simp [L2001bad]
  simp only [countPass, L2001bad_filter, hlen,
    pySortDesc_sorted_id _ _ (L2001bad_pairwise nowE), L2001bad_getLast]
  norm_num [MAX_ANOMY_IMAGES]

/-- C2 (code_bug evidence): on an anomaly directory holding the 2005
parseable snapshot files `L2005`, all inside the 12-hour window at sweep
time `nowC`, one `manage_storage` sweep deletes only the single oldest
file `nameC 0` and then aborts with an uncaught `FileNotFoundError`
(the loop removes `anomaly_files[-1]` — the same path — five times),
leaving 2004 files instead of the 2000 the claim (and the function's own
docstring) promises. -/
theorem c2_count_eval :
    manage_storage [] L2005 nowC
        = (([], L2005.erase (nameC 0)), some ("FileNotFoundError"))
      ∧ L2005.length = 2005
      ∧ (L2005.erase (nameC 0)).length = 2004 := by
  have hage : anomalyAgePass L2005 L2005 (nowC - MAX_VIDEO_DURATION) nowC = L2005 := by
    apply anomalyAgePass_id
    intro f hf
    rcases List.mem_map.1 (show f ∈ (List.range (2004 + 1)).map (fun j => nameC (2004 - j))
      from hf) with ⟨j, hj, rfl⟩
    apply anomalyAgeStep_skip
    intro t hp
    rw [parse_nameC _ (by omega)] at hp
    have ht : KEY + (2004 - j) = t := by injection hp
    have hK := KEY_large
    simp only [nowC, MAX_VIDEO_DURATION]
    omega
  have hv : videoAgePass [] [] (nowC - MAX_VIDEO_DURATION) = [] := rfl
  have hcp : countPass L2005 L2005 nowC
      = (L2005.erase (nameC 0), some ("FileNotFoundError")) := by
    rw [show L2005 = descListing 2004 from rfl,
      countPass_descListing 2004 (by omega) (by norm_num [MAX_ANOMY_IMAGES]) _ nowC]
    have h5 : 2004 + 1 - MAX_ANOMY_IMAGES = 3 + 2 := by norm_num [MAX_ANOMY_IMAGES]
    rw [h5, countLoop_two _ _ _ (descListing_mem0 2004)
      ((descListing_nodup 2004 (by omega)).not_mem_erase)]
  refine ⟨?_, by simp [L2005, descListing], ?_⟩
  · simp only [manage_storage, hage, hv, hcp]
  · rw [show L2005 = descListing 2004 from rfl,
      List.length_erase_of_mem (descListing_mem0 2004), descListing_length]

/-- C4 (counterexample): a retention sweep over 2001 snapshot files none
of whose names parse (`L2001bad`) deletes the file `nameBad 2000` even
though its name does not parse: the count-based pass sorts the
unparseable names by the `datetime.now()` fallback key and removes the
tail of the sort.  This refutes "a file whose name does not parse is
never deleted by a retention sweep". -/
theorem c4_counterexample :
    manage_storage [] L2001bad 0
        = (([], L2001bad.erase (nameBad 2000)), none)
      ∧ parseTimestamp (anomalyTsStr (nameBad 2000)) = none
      ∧ nameBad 2000 ∈ L2001bad
      ∧ nameBad 2000 ∉ L2001bad.erase (nameBad 2000) := by
  have hmem : nameBad 2000 ∈ L2001bad :=
    List.mem_map.mpr ⟨2000, List.mem_range.mpr (by omega), rfl⟩
  have hage : anomalyAgePass L2001bad L2001bad (0 - MAX_VIDEO_DURATION) 0 = L2001bad := by
    apply anomalyAgePass_id
    intro f hf
    rcases List.mem_map.1 (show f ∈ (List.range (2000 + 1)).map nameBad from hf)
      with ⟨j, -, rfl⟩
    apply anomalyAgeStep_skip
    intro t hp
    rw [parse_nameBad] at hp
    exact absurd hp (by simp)
  have hv : videoAgePass [] [] (0 - MAX_VIDEO_DURATION) = [] := rfl
  have hcp : countPass L2001bad L2001bad 0
      = (L2001bad.erase (nameBad 2000), none) := by
    rw [countPass_L2001bad, countLoop_one _ _ hmem]
  refine ⟨?_, parse_nameBad 2000, hmem, L2001bad_nodup.not_mem_erase⟩
  simp only [manage_storage, hage, hv, hcp]

/-- C4 (amended): the age-based deletion passes never delete a file whose
embedded timestamp does not parse — the parse and the `os.remove` share
one `try/except`, so a parse failure skips the file; only the count-based
pass can delete an unparseable snapshot file (see the counterexample). -/
theorem c4_age_retention :
    (∀ (listing fs : FS) (cutoff nowE : Nat) (f : String),
        parseTimestamp (anomalyTsStr f) = none → f ∈ fs →
        f ∈ anomalyAgePass listing fs cutoff nowE)
  ∧ (∀ (listing fs : FS) (cutoff : Nat) (f : String),
        parseTimestamp (videoTsStr f) = none → f ∈ fs →
        f ∈ videoAgePass listing fs cutoff) := by
  constructor
  · intro listing fs cutoff nowE f hnone hf
    unfold anomalyAgePass
    apply foldl_pres _ _ _ (fun st => f ∈ st) ?_ hf
    intro st a hP
    unfold anomalyAgeStep
    cases hp : parseTimestamp (anomalyTsStr a) with
    | none => exact hP
    | some t =>
      have hne : f ≠ a := by
        intro he
        rw [he, hp] at hnone
        exact absurd hnone (by simp)
      by_cases hc : t < cutoff
      · simp only [if_pos hc]
        unfold removeCaught osRemove
        by_cases hmem : a ∈ st
        · simp only [if_pos hmem]
          exact (List.mem_erase_of_ne hne).2 hP
        · simp only [if_neg hmem]
          exact hP
      · simp only [if_neg hc]
        exact hP
  · intro listing fs cutoff f hnone hf
    unfold videoAgePass
    apply foldl_pres _ _ _ (fun st => f ∈ st) ?_ hf
    intro st a hP
    unfold videoAgeStep
    by_cases hm : matchVideo a = true
    · simp only [if_pos hm]
      cases hp : parseTimestamp (videoTsStr a) with
      | none => exact hP
      | some t =>
        have hne : f ≠ a := by
          intro he
          rw [he, hp] at hnone
          exact absurd hnone (by simp)
        by_cases hc : t < cutoff
        · simp only [if_pos hc]
          unfold removeCaught osRemove
          by_cases hmem : a ∈ st
          · simp only [if_pos hmem]
            exact (List.mem_erase_of_ne hne).2 hP
          · simp only [if_neg hmem]
            exact hP
        · simp only [if_neg hc]
          exact hP
    · simp only [if_neg hm]
      exact hP

/-- C4 witness: a concrete unparseable snapshot name survives the anomaly
age pass. -/
theorem c4_age_retention_witness :
    parseTimestamp (anomalyTsStr ("anomaly_zz.jpg")) = none
    ∧ ("anomaly_zz.jpg") ∈
        anomalyAgePass [("anomaly_zz.jpg")] [("anomaly_zz.jpg")] 0 0 :=
  ⟨by decide,
   c4_age_retention.1 [("anomaly_zz.jpg")] [("anomaly_zz.jpg")] 0 0
     ("anomaly_zz.jpg") (by decide) (by decide)⟩

/-- C6 (counterexample): the count-based pass of a sweep does not
tolerate a file disappearing between listing and deletion.  `L2001r` is
a listing of 2001 snapshot files taken at line 209; before the deletion
loop runs, the selected oldest file `nameC 0` is removed by a concurrent
sweep (live state `L2001r.erase (nameC 0)`); the unguarded `os.remove`
then raises `FileNotFoundError`, aborting the sweep instead of treating
the missing file as success. -/
theorem c6_counterexample :
    countPass L2001r (L2001r.erase (nameC 0)) 0
        = (L2001r.erase (nameC 0), some ("FileNotFoundError"))
      ∧ nameC 0 ∈ L2001r := by
  refine ⟨?_, descListing_mem0 2000⟩
  rw [show L2001r = descListing 2000 from rfl,
    countPass_descListing 2000 (by omega) (by norm_num [MAX_ANOMY_IMAGES]) _ 0]
  have h1 : 2000 + 1 - MAX_ANOMY_IMAGES = 0 + 1 := by norm_num [MAX_ANOMY_IMAGES]
  rw [h1, countLoop_missing _ _ _ ((descListing_nodup 2000 (by omega)).not_mem_erase)]

/-- C6 (amended): the age-based passes do tolerate the benign race — the
broad `except` around parse-and-remove turns a missing file into a no-op
and the sweep continues — but in the count-based pass a missing selected
file raises an uncaught `FileNotFoundError` that aborts the sweep. -/
theorem c6_amended :
    (∀ (fs : FS) (f : String), f ∉ fs →
        osRemove fs f = Except.error ("FileNotFoundError") ∧ removeCaught fs f = fs)
  ∧ (∀ (fs : FS) (v : String) (k : Nat), v ∉ fs →
        countLoop v (k + 1) fs = (fs, some ("FileNotFoundError"))) := by
  constructor
  · intro fs f hf
    constructor
    · simp [osRemove, hf]
    · simp [removeCaught, osRemove, hf]
  · intro fs v k hv
    exact countLoop_missing fs v k hv

/-- C6 witness: the amended statement at a concrete missing file. -/
theorem c6_amended_witness :
    (osRemove [] ("x") = Except.error ("FileNotFoundError")
      ∧ removeCaught [] ("x") = [])
    ∧ countLoop ("x") 1 [] = ([], some ("FileNotFoundError")) :=
  ⟨c6_amended.1 [] ("x") (by decide), c6_amended.2 [] ("x") 0 (by decide)⟩

/-! ## Hub invariant: everything ever delivered, then the queue, then the
next sequence number, is strictly increasing -/

theorem publish_sublist (q : List Nat) (f : Nat) : (publish q f).Sublist (q ++ [f]) := by
  unfold publish
  split_ifs with h
  · exact List.Sublist.refl _
  · exact List.Sublist.append (List.drop_sublist 1 q) (List.Sublist.refl _)

theorem hubStep_inv (s : HubState) (op : HubOp)
    (h : (s.delivered.map Prod.snd ++ s.queue ++ [s.nextSeq]).Pairwise (· < ·)) :
    (((hubStep s op).delivered.map Prod.snd ++ (hubStep s op).queue
        ++ [(hubStep s op).nextSeq])).Pairwise (· < ·) := by
  cases op with
  | pub =>
    show (s.delivered.map Prod.snd ++ publish s.queue s.nextSeq
        ++ [s.nextSeq + 1]).Pairwise (· < ·)
    have hlt : ∀ x ∈ s.delivered.map Prod.snd ++ s.queue ++ [s.nextSeq], x < s.nextSeq + 1 := by
      intro x hx
      rw [List.append_assoc, List.mem_append] at hx
      rcases hx with hx1 | hx2
      · have h2 := (List.pairwise_append.1 (by rwa [List.append_assoc] at h)).2.2
        exact Nat.lt_succ_of_lt (h2 x hx1 s.nextSeq (by simp))
      · rw [List.mem_append] at hx2
        rcases hx2 with hx3 | hx4
        · have h2 := (List.pairwise_append.1
            (List.pairwise_append.1 (by rwa [List.append_assoc] at h)).2.1).2.2
          exact Nat.lt_succ_of_lt (h2 x hx3 s.nextSeq (by simp))
        · simp only [List.mem_singleton] at hx4
          omega
    have hbig : ((s.delivered.map Prod.snd ++ s.queue ++ [s.nextSeq])
        ++ [s.nextSeq + 1]).Pairwise (· < ·) := by
      rw [List.pairwise_append]
      exact ⟨h, List.pairwise_singleton _ _, by
        intro a ha b hb
        simp only [List.mem_singleton] at hb
        subst hb
        exact hlt a ha⟩
    apply List.Pairwise.sublist ?_ hbig
    have hsub : (publish s.queue s.nextSeq).Sublist (s.queue ++ [s.nextSeq]) :=
      publish_sublist _ _
    calc (s.delivered.map Prod.snd ++ publish s.queue s.nextSeq ++ [s.nextSeq + 1]).Sublist
          (s.delivered.map Prod.snd ++ (s.queue ++ [s.nextSeq]) ++ [s.nextSeq + 1]) := by
            apply List.Sublist.append ?_ (List.Sublist.refl _)
            exact List.Sublist.append (List.Sublist.refl _) hsub
      _ = (s.delivered.map Prod.snd ++ s.queue ++ [s.nextSeq]) ++ [s.nextSeq + 1] := by
            simp [List.append_assoc]
  | poll c =>
    cases hq : s.queue with
    | nil =>
      simp only [hubStep, hq, get_frame]
      rw [hq] at h
      simpa using h
    | cons f rest =>
      simp only [hubStep, hq, get_frame]
      rw [hq] at h
      rw [List.map_append]
      simpa [List.append_assoc] using h

theorem runHub_inv (ops : List HubOp) :
    ((runHub ops).delivered.map Prod.snd ++ (runHub ops).queue
        ++ [(runHub ops).nextSeq]).Pairwise (· < ·) := by
  have haux : ∀ (l : List HubOp) (s : HubState),
      (s.delivered.map Prod.snd ++ s.queue ++ [s.nextSeq]).Pairwise (· < ·) →
      ((l.foldl hubStep s).delivered.map Prod.snd ++ (l.foldl hubStep s).queue
        ++ [(l.foldl hubStep s).nextSeq]).Pairwise (· < ·) := by
    intro l
    induction l with
    | nil => intro s hs; exact hs
    | cons op rest ih =>
      intro s hs
      exact ih (hubStep s op) (hubStep_inv s op hs)
  exact haux ops hubInit (by simp [hubInit])

theorem runHub_delivered_sorted (ops : List HubOp) :
    ((runHub ops).delivered.map Prod.snd).Pairwise (· < ·) := by
  have h := runHub_inv ops
  rw [List.append_assoc] at h
  exact (List.pairwise_append.1 h).1

/-- C1 (code_bug evidence): the producer publishes frames 1..5 into the
empty hub; the first consumer poll then returns frame 1 — the OLDEST
queued frame — and frames 2..5 remain queued for later delivery.  The
claim says the poll returns frame 5 with frames 1..4 dropped; `get_frame`
is a destructive FIFO read of the shared `Queue`, despite its own
docstring "Get the latest frame from the queue". -/
theorem c1_hub_eval :
    (runHub [HubOp.pub, HubOp.pub, HubOp.pub, HubOp.pub, HubOp.pub,
      HubOp.poll 0]).delivered = [(0, 1)]
    ∧ (runHub [HubOp.pub, HubOp.pub, HubOp.pub, HubOp.pub, HubOp.pub,
      HubOp.poll 0]).queue = [2, 3, 4, 5] := by
  constructor <;> rfl

/-- C7 (confirmed): over any interleaving of producer publishes and
consumer polls, the sequence numbers of the frames any single consumer
`c` receives from its successive non-empty polls are strictly increasing
— the shared queue is FIFO and reads are destructive, so the globally
delivered sequence (hence every consumer's subsequence of it) is
strictly increasing. -/
theorem c7_monotonic (ops : List HubOp) (c : Nat) :
    ((((runHub ops).delivered.filter (fun p => p.1 == c)).map Prod.snd)).Pairwise (· < ·) := by
  have h1 := runHub_delivered_sorted ops
  exact List.Pairwise.sublist
    (List.Sublist.map Prod.snd (List.filter_sublist (runHub ops).delivered)) h1

/-- C9 (confirmed): the hub's buffer never holds more than
`QUEUE_SIZE = 10` frames over any interleaving, and `publish` on a full
buffer discards the oldest (front) frame and admits the newest — the
producer's publish is total (never blocks). -/
theorem c9_bounded :
    (∀ ops : List HubOp, (runHub ops).queue.length ≤ QUEUE_SIZE)
    ∧ (∀ (q : List Nat) (f : Nat), q.length = QUEUE_SIZE →
        publish q f = q.drop 1 ++ [f]) := by
  constructor
  · intro ops
    have haux : ∀ (l : List HubOp) (s : HubState), s.queue.length ≤ QUEUE_SIZE →
        (l.foldl hubStep s).queue.length ≤ QUEUE_SIZE := by
      intro l
      induction l with
      | nil => intro s hs; exact hs
      | cons op rest ih =>
        intro s hs
        apply ih
        cases op with
        | pub =>
          show (publish s.queue s.nextSeq).length ≤ QUEUE_SIZE
          unfold publish QUEUE_SIZE
          unfold QUEUE_SIZE at hs
          split_ifs with h2
          · simp only [List.length_append, List.length_cons, List.length_nil]
            omega
          · simp only [List.length_append, List.length_drop, List.length_cons,
              List.length_nil]
            omega
        | poll c =>
          cases hq : s.queue with
          | nil => simpa [hubStep, hq, get_frame] using hs
          | cons f rest2 =>
            simp only [hubStep, hq, get_frame]
            rw [hq] at hs
            simp only [List.length_cons] at hs
            simpa using Nat.le_of_succ_le hs
    exact haux ops hubInit (by simp [hubInit])
  · intro q f h
    unfold publish
    rw [if_neg (by rw [h]; exact Nat.lt_irrefl _)]

/-- C9 witness: the invariant at a concrete 12-publish run, and the
full-queue overwrite at a concrete full queue. -/
theorem c9_bounded_witness :
    (runHub (List.replicate 12 HubOp.pub)).queue.length ≤ QUEUE_SIZE
    ∧ publish [1, 2, 3, 4, 5, 6, 7, 8, 9, 10] 11
        = [2, 3, 4, 5, 6, 7, 8, 9, 10, 11] :=
  ⟨c9_bounded.1 (List.replicate 12 HubOp.pub),
   (c9_bounded.2 [1, 2, 3, 4, 5, 6, 7, 8, 9, 10] 11 (by decide)).trans (by decide)⟩

/-- C10 (confirmed): every poll removes the returned frame from the
shared queue, so across the recorder, the detector and all stream
viewers, no frame sequence number is ever delivered twice — each captured
frame reaches at most one consumer. -/
theorem c10_single_delivery (ops : List HubOp) :
    ((runHub ops).delivered.map Prod.snd).Nodup := by
  have h1 := runHub_delivered_sorted ops
  exact h1.imp (fun hlt => Nat.ne_of_lt hlt)

/-- C3 (confirmed): a flagged anomaly produces a snapshot iff the time
since the last successful capture is at least the 5-second cooldown; a
suppressed detection leaves `last_capture_time` unchanged; and for
detections at times `T, T+1, T+6` (with `T` at least the cooldown, as any
real `time.time()` value is) snapshots are written exactly at `T` and
`T+6`. -/
theorem c3_cooldown :
    (∀ last now : Int,
        ((detectStep last true now).1 = true ↔ ANOMALY_COOLDOWN ≤ now - last))
    ∧ (∀ last now : Int, now - last < ANOMALY_COOLDOWN →
        detectStep last true now = (false, last))
    ∧ (∀ T : Int, ANOMALY_COOLDOWN ≤ T →
        detectRun 0 [(T, true), (T + 1, true), (T + 6, true)] = [T, T + 6]) := by
  refine ⟨?_, ?_, ?_⟩
  · intro last now
    unfold detectStep
    by_cases h : ANOMALY_COOLDOWN ≤ now - last
    · simp [h]
    · simp [h]
  · intro last now h
    unfold detectStep
    rw [if_pos rfl, if_neg (by omega)]
  · intro T hT
    have hT5 : (5 : Int) ≤ T := hT
    have s1 : detectStep 0 true T = (true, T) := by
      unfold detectStep
      rw [if_pos rfl, if_pos (show ANOMALY_COOLDOWN ≤ T - 0 by
        show (5 : Int) ≤ T - 0
        omega)]
    have s2 : detectStep T true (T + 1) = (false, T) := by
      unfold detectStep
      rw [if_pos rfl, if_neg (show ¬ ANOMALY_COOLDOWN ≤ T + 1 - T by
        show ¬ (5 : Int) ≤ T + 1 - T
        omega)]
    have s3 : detectStep T true (T + 6) = (true, T + 6) := by
      unfold detectStep
      rw [if_pos rfl, if_pos (show ANOMALY_COOLDOWN ≤ T + 6 - T by
        show (5 : Int) ≤ T + 6 - T
        omega)]
    show detectRun 0 ((T, true) :: [(T + 1, true), (T + 6, true)]) = [T, T + 6]
    rw [detectRun, s1]
    simp only []
    rw [detectRun, s2]
    simp only []
    rw [detectRun, s3]
    simp [detectRun]

/-- C3 witness: the scenario at `T = 100`. -/
theorem c3_cooldown_witness :
    ((detectStep 3 true 9).1 = true ↔ ANOMALY_COOLDOWN ≤ (9 : Int) - 3)
    ∧ detectRun 0 [(100, true), (100 + 1, true), (100 + 6, true)] = [100, 100 + 6] :=
  ⟨c3_cooldown.1 3 9, c3_cooldown.2.2 100 (by decide)⟩

/-- C5 (counterexample): a recorder cycle in which rotation is due — the
open chunk's id is 0 (opened at time 0), `end_time = 1800`, and the cycle
runs at `now = 1800` — writes the polled frame 42 into chunk 0, the chunk
being closed this same cycle, and opens no new chunk.  The claim says the
frame is written into the newly opened chunk (which would carry id 1800):
in `record_video` the `video_writer.write(frame)` precedes the rotation
check. -/
theorem c5_counterexample :
    recordCycle { writer := some 0, endTime := 1800 } (some 42) 1800
        = ({ writer := none, endTime := 1800 }, some (0, 42))
      ∧ (0 : Int) ≠ 1800 := by
  constructor
  · rfl
  · decide

/-- C5 (amended): when rotation is due, the polled frame is written into
the current chunk immediately before that chunk is finalised (it is not
discarded, but it lands in the closing chunk, not a new one), and the
next cycle's frame opens a fresh chunk named after that cycle's time and
is written there. -/
theorem c5_rotation_amended :
    (∀ (w endT : Int) (f : Nat) (now : Int), endT ≤ now →
        recordCycle { writer := some w, endTime := endT } (some f) now
          = ({ writer := none, endTime := endT }, some (w, f)))
    ∧ (∀ (endT : Int) (f : Nat) (now : Int),
        recordCycle { writer := none, endTime := endT } (some f) now
          = ({ writer := some now, endTime := now + VIDEO_DURATION }, some (now, f))) := by
  constructor
  · intro w endT f now h
    simp only [recordCycle]
    rw [if_pos h]
  · intro endT f now
    have hc : ¬ now + VIDEO_DURATION ≤ now := by
      show ¬ now + (30 * 60 : Int) ≤ now
      omega
    simp only [recordCycle]
    rw [if_neg hc]

/-- C5 witness: the amended statement at concrete cycles. -/
theorem c5_rotation_amended_witness :
    ((1800 : Int) ≤ 1900
      ∧ recordCycle { writer := some 0, endTime := 1800 } (some 7) 1900
          = ({ writer := none, endTime := 1800 }, some (0, 7)))
    ∧ recordCycle { writer := none, endTime := 1800 } (some 8) 2000
        = ({ writer := some 2000, endTime := 2000 + VIDEO_DURATION }, some (2000, 8)) :=
  ⟨⟨by decide, c5_rotation_amended.1 0 1800 7 1900 (by decide)⟩,
   c5_rotation_amended.2 1800 8 2000⟩

/-! ## Pagination -/

theorem take_as_filterMap {α : Type} (n : Nat) (l : List α) :
    l.take n = (List.range n).filterMap (fun j => l.get? j) := by
  induction n with
  | zero => simp
  | succ m ih =>
    rw [List.range_succ, List.filterMap_append, ← ih, List.take_succ]
    cases hq : l[m]? <;> simp [List.filterMap, hq]

theorem drop_take_as_filterMap {α : Type} (s n : Nat) (l : List α) :
    (l.drop s).take n = (List.range n).filterMap (fun j => l.get? (s + j)) := by
  rw [take_as_filterMap]
  apply List.filterMap_congr
  intro j hj
  exact List.get?_drop l s j

/-- C8 (confirmed): for every directory listing, page `P ≥ 1` and size
`N`, the anomalies endpoint returns exactly the URLs of items
`(P-1)*N+1 .. P*N` (1-indexed) of the descending-sorted anomaly listing
(`specPage`, written from the spec's words), and an out-of-range page
yields an empty list rather than an error.  (`page ≥ 1` marks the model's
domain: Flask's `type=int` would let a non-positive page reach Python's
negative-index slicing, which the claim does not cover.) -/
theorem c8_pagination (dirListing : List String) (page per_page : Nat)
    (hp : 1 ≤ page) :
    get_anomalies dirListing page per_page
        = (specPage (pySortStrDesc (dirListing.filter matchAnomaly)) page per_page).map
            (fun f => ("/anomalies/") ++ f)
    ∧ ((pySortStrDesc (dirListing.filter matchAnomaly)).length ≤ (page - 1) * per_page →
        get_anomalies dirListing page per_page = []) := by
  constructor
  · simp only [get_anomalies, specPage]
    rw [drop_take_as_filterMap]
  · intro hlen
    simp only [get_anomalies]
    rw [List.drop_eq_nil_of_le hlen]
    simp

theorem length_insStrDesc (x : String) (l : List String) :
    (insStrDesc x l).length = l.length + 1 := by
  induction l with
  | nil => rfl
  | cons y ys ih =>
    show (if x < y then y :: insStrDesc x ys else x :: y :: ys).length = _
    split_ifs <;> simp [ih]

theorem length_pySortStrDesc (l : List String) :
    (pySortStrDesc l).length = l.length := by
  induction l with
  | nil => rfl
  | cons x xs ih =>
    show (insStrDesc x (pySortStrDesc xs)).length = _
    rw [length_insStrDesc, ih]
    rfl

theorem anomNames25_sorted_len :
    (pySortStrDesc (anomNames25.filter matchAnomaly)).length = 25 := by
  rw [length_pySortStrDesc, List.filter_eq_self.mpr ?h]
  · simp [anomNames25]
  · intro a ha
    rcases List.mem_map.1 ha with ⟨j, -, rfl⟩
    exact matchAnomaly_mk _

/-- C8 witness: the pagination example on the 25 concrete file names
`anomNames25`: page 2 of size 10 is the spec's slice (items 11..20), and
page 4 of size 10 is empty. -/
theorem c8_pagination_witness :
    (get_anomalies anomNames25 2 10
        = (specPage (pySortStrDesc (anomNames25.filter matchAnomaly)) 2 10).map
            (fun f => ("/anomalies/") ++ f))
    ∧ get_anomalies anomNames25 4 10 = [] :=
  ⟨(c8_pagination anomNames25 2 10 (by decide)).1,
   (c8_pagination anomNames25 4 10 (by decide)).2
     (by rw [anomNames25_sorted_len]; norm_num)⟩
